import Mathlib

/-!
Verification of the Betting Signal & Grading Engine of the seanpicks
repository.  Prices, probabilities and lines are embedded as rationals;
the functions below are transcribed from the repository sources
(`src/backend/PROFESSIONAL_EDGES_ANALYSIS.md` code snippets,
`src/frontend/src/components/Dashboard.tsx`,
`src/frontend/src/components/BetTracker.tsx`); components whose
implementation is not part of the repository snapshot are modelled from
the specification and marked as such in their doc comments.
-/

namespace SeanPicks

/-- Transcribed from `kelly_criterion` in
`src/backend/PROFESSIONAL_EDGES_ANALYSIS.md` (lines 195-199):
`q = 1 - win_prob; b = decimal_odds - 1; kelly = (b * win_prob - q) / b;`
returns `min(kelly * 0.25, 0.05)` (quarter Kelly, 5% cap).  Note the
source returns this minimum unconditionally: there is no branch mapping
a non-positive `kelly` to a zero stake. -/
def kelly_criterion (win_prob decimal_odds : ℚ) : ℚ :=
  let q := 1 - win_prob
  let b := decimal_odds - 1
  let kelly := (b * win_prob - q) / b
  min (kelly * (1/4)) (1/20)

/-- Modelled from the spec: `implied_probability`, called but not defined
in the `remove_vig` snippet of `src/backend/PROFESSIONAL_EDGES_ANALYSIS.md`;
section 4.1 of the spec gives the conversion from American odds:
`p = |price|/(|price|+100)` for negative prices and `p = 100/(price+100)`
for positive prices. -/
def implied_probability (price : ℚ) : ℚ :=
  if price < 0 then |price| / (|price| + 100) else 100 / (price + 100)

/-- Transcribed from `remove_vig` in
`src/backend/PROFESSIONAL_EDGES_ANALYSIS.md` (lines 167-172):
both implied probabilities are renormalised by their sum. -/
def remove_vig (odds1 odds2 : ℚ) : ℚ × ℚ :=
  let prob1 := implied_probability odds1
  let prob2 := implied_probability odds2
  let total := prob1 + prob2
  (prob1 / total, prob2 / total)

/-- Transcribed from the Sharp Money panel of
`src/frontend/src/components/Dashboard.tsx` (line 765):
`const edge = ((play.confidence - 0.524) * 100).toFixed(1)`.
The breakeven probability is the hard-coded constant `0.524`. -/
def dashboardSharpEdge (confidence : ℚ) : ℚ :=
  (confidence - 524/1000) * 100

/-- The edge formula of the spec (section 4.3): the edge percentage is
`(confidence - p_pick) * 100` where `p_pick` is the de-vigged
probability of the picked side. -/
def specEdgePct (confidence p_pick : ℚ) : ℚ :=
  (confidence - p_pick) * 100

/-- C1: the claim states that the stake-sizing operation returns 0
whenever `kelly ≤ 0` and hence never returns a negative stake.  The code
(`kelly_criterion`) has no such branch: at win probability 0.4 and
decimal odds 2 the Kelly fraction is -0.2, yet the code returns
`min(-0.05, 0.05) = -0.05`, a negative stake. -/
theorem kelly_criterion_negative_stake_at_losing_prob :
    kelly_criterion (2/5) 2 = -(1/20) ∧ kelly_criterion (2/5) 2 < 0 := by
  constructor <;> norm_num [kelly_criterion]

/-- C2: for every two-way market whose two implied probabilities are
positive, the de-vig operation returns the pair renormalised by its sum,
and the two returned probabilities sum to exactly 1. -/
theorem remove_vig_sums_to_one (odds1 odds2 : ℚ)
    (h1 : 0 < implied_probability odds1)
    (h2 : 0 < implied_probability odds2) :
    (remove_vig odds1 odds2).1 =
      implied_probability odds1 /
        (implied_probability odds1 + implied_probability odds2) ∧
    (remove_vig odds1 odds2).2 =
      implied_probability odds2 /
        (implied_probability odds1 + implied_probability odds2) ∧
    (remove_vig odds1 odds2).1 + (remove_vig odds1 odds2).2 = 1 := by
  have htot : implied_probability odds1 + implied_probability odds2 ≠ 0 := by
    positivity
  refine ⟨rfl, rfl, ?_⟩
  show implied_probability odds1 / _ + implied_probability odds2 / _ = 1
  rw [div_add_div_same, div_self htot]

/-- Witness for C2 at the scenario prices of the spec: book A at -150,
book B at +140. -/
theorem remove_vig_sums_to_one_witness :
    0 < implied_probability (-150) ∧ 0 < implied_probability 140 ∧
    (remove_vig (-150) 140).1 + (remove_vig (-150) 140).2 = 1 := by
  have h1 : 0 < implied_probability (-150) := by
    norm_num [implied_probability]
  have h2 : 0 < implied_probability 140 := by
    norm_num [implied_probability]
  exact ⟨h1, h2, (remove_vig_sums_to_one (-150) 140 h1 h2).2.2⟩

/-- C3 counterexample: the claim states that the reported edge equals
`(confidence - p_pick) * 100` with `p_pick` de-vigged from the current
best prices.  For a play with confidence 0.6 on a market quoted -150 /
+140, the de-vigged pick probability is 36/61, so the spec formula gives
60/61 percent, while the dashboard reports (0.6 - 0.524) * 100 = 7.6. -/
theorem dashboard_edge_fixed_constant_counterexample :
    dashboardSharpEdge (6/10) ≠
      specEdgePct (6/10) (remove_vig (-150) 140).1 := by
  norm_num [dashboardSharpEdge, specEdgePct, remove_vig,
    implied_probability]

/-- C3 amended: the reported edge equals `(confidence - 0.524) * 100`
with the fixed breakeven constant 0.524; it agrees with the de-vigged
formula of the spec exactly when the de-vigged probability of the
picked side happens to equal 0.524. -/
theorem dashboardSharpEdge_eq_devig_iff (c odds1 odds2 : ℚ)
    (_h1 : 0 < implied_probability odds1)
    (_h2 : 0 < implied_probability odds2) :
    dashboardSharpEdge c = specEdgePct c (remove_vig odds1 odds2).1 ↔
      (remove_vig odds1 odds2).1 = 524/1000 := by
  unfold dashboardSharpEdge specEdgePct
  constructor <;> intro h <;> linarith

/-- Witness for C3 amended at confidence 0.6 and prices -110 / -110:
there the de-vigged pick probability is exactly 1/2, not 0.524, and
accordingly the dashboard edge differs from the spec edge. -/
theorem dashboardSharpEdge_eq_devig_iff_witness :
    0 < implied_probability (-110) ∧
    (dashboardSharpEdge (6/10) =
        specEdgePct (6/10) (remove_vig (-110) (-110)).1 ↔
      (remove_vig (-110) (-110)).1 = 524/1000) := by
  have h : 0 < implied_probability (-110) := by
    norm_num [implied_probability]
  exact ⟨h, dashboardSharpEdge_eq_devig_iff (6/10) (-110) (-110) h h⟩

/-- C5: for fixed decimal odds greater than 1, the stake returned by
`kelly_criterion` is monotonically non-decreasing in the confidence. -/
theorem kelly_criterion_monotone (d p1 p2 : ℚ)
    (hd : 1 < d) (hp : p1 ≤ p2) :
    kelly_criterion p1 d ≤ kelly_criterion p2 d := by
  unfold kelly_criterion
  have hb : (0:ℚ) < d - 1 := by linarith
  refine min_le_min ?_ le_rfl
  have hnum : (d - 1) * p1 - (1 - p1) ≤ (d - 1) * p2 - (1 - p2) := by
    nlinarith
  have hdiv : ((d - 1) * p1 - (1 - p1)) / (d - 1) ≤
      ((d - 1) * p2 - (1 - p2)) / (d - 1) :=
    div_le_div_of_nonneg_right hnum hb.le
  exact mul_le_mul_of_nonneg_right hdiv (by norm_num)

/-- Witness for C5 at confidences 0.5 ≤ 0.58 and decimal odds 1.91. -/
theorem kelly_criterion_monotone_witness :
    (1:ℚ) < 191/100 ∧ (1:ℚ)/2 ≤ 58/100 ∧
    kelly_criterion (1/2) (191/100) ≤ kelly_criterion (58/100) (191/100) := by
  refine ⟨by norm_num, by norm_num, ?_⟩
  exact kelly_criterion_monotone (191/100) (1/2) (58/100)
    (by norm_num) (by norm_num)

/-- One leg of a parlay: a pick on one game, carrying the confidence and
decimal odds of that leg. -/
structure ParlayLeg where
  game_id : Nat
  confidence : ℚ
  decimal_odds : ℚ
deriving DecidableEq

/-- A parlay candidate of the spec data model (section 3). -/
structure ParlayCandidate where
  legs : List ParlayLeg
  joint_probability : ℚ
  payout_multiplier : ℚ
  expected_value : ℚ
deriving DecidableEq

/-- Modelled from the spec: the ParlayBuilder (section 4.5) is not part
of the repository snapshot (the frontend only renders candidates served
by the backend).  Per the spec, joint probability is the product of the
leg confidences, the payout multiplier the product of the leg decimal
odds, and expected value is
`joint_probability * payout_multiplier - (1 - joint_probability)`.
The products are accumulated leg by leg. -/
def mkParlayCandidate (legs : List ParlayLeg) : ParlayCandidate :=
  let jp := legs.foldl (fun acc l => acc * l.confidence) 1
  let pm := legs.foldl (fun acc l => acc * l.decimal_odds) 1
  { legs := legs
    joint_probability := jp
    payout_multiplier := pm
    expected_value := jp * pm - (1 - jp) }

/-- The accumulated product over a list of legs is the product of the
projected values. -/
theorem foldl_mul_eq_prod (f : ParlayLeg → ℚ) (legs : List ParlayLeg) :
    legs.foldl (fun acc l => acc * f l) 1 = (legs.map f).prod := by
  rw [List.prod_eq_foldl, ← List.foldl_map]

/-- C4: for every parlay candidate over legs from distinct games, the
joint probability is the product of the leg confidences, the payout
multiplier is the product of the leg decimal odds, and the expected
value is `joint_probability * payout_multiplier - (1 - joint_probability)`. -/
theorem parlay_candidate_formulas (legs : List ParlayLeg)
    (_hdistinct : legs.Pairwise (fun a b => a.game_id ≠ b.game_id)) :
    (mkParlayCandidate legs).joint_probability =
      (legs.map (fun l => l.confidence)).prod ∧
    (mkParlayCandidate legs).payout_multiplier =
      (legs.map (fun l => l.decimal_odds)).prod ∧
    (mkParlayCandidate legs).expected_value =
      (mkParlayCandidate legs).joint_probability *
          (mkParlayCandidate legs).payout_multiplier -
        (1 - (mkParlayCandidate legs).joint_probability) := by
  refine ⟨foldl_mul_eq_prod _ legs, foldl_mul_eq_prod _ legs, rfl⟩

/-- Witness for C4 on a concrete two-leg parlay over distinct games. -/
theorem parlay_candidate_formulas_witness :
    ([⟨1, 3/5, 191/100⟩, ⟨2, 11/20, 2⟩] :
        List ParlayLeg).Pairwise (fun a b => a.game_id ≠ b.game_id) ∧
    (mkParlayCandidate [⟨1, 3/5, 191/100⟩, ⟨2, 11/20, 2⟩]).joint_probability =
      ([(3:ℚ)/5, 11/20]).prod := by
  refine ⟨by decide, ?_⟩
  exact (parlay_candidate_formulas [⟨1, 3/5, 191/100⟩, ⟨2, 11/20, 2⟩]
    (by decide)).1

/-- The four component scores of the confidence model. -/
structure ComponentScores where
  pattern : ℚ
  analytics : ℚ
  situational : ℚ
  market : ℚ

/-- The four component weights of the confidence model. -/
structure NWeights where
  pattern : ℚ
  analytics : ℚ
  situational : ℚ
  market : ℚ

/-- Clamping a value into an interval. -/
def clamp (x lo hi : ℚ) : ℚ := max lo (min x hi)

/-- Modelled from the spec: the ConfidenceScorer (section 4.3) is not
part of the repository snapshot (`src/backend/MISSING_FEATURES.md`
lines 58-61 only sketch it).  Per the spec,
`confidence = clamp(0.50 + Σ wᵢ·scoreᵢ, 0, 1)` over the four components,
each pre-clamped to the configured contribution range `±cap` before
weighting. -/
def confidenceScore (w : NWeights) (cap : ℚ) (s : ComponentScores) : ℚ :=
  clamp (1/2 +
    (w.pattern * clamp s.pattern (-cap) cap +
      w.analytics * clamp s.analytics (-cap) cap +
      w.situational * clamp s.situational (-cap) cap +
      w.market * clamp s.market (-cap) cap)) 0 1

/-- C6: for component scores already inside the configured range and any
weights summing to 1, the produced confidence equals
`clamp(0.50 + Σ wᵢ·scoreᵢ, 0, 1)` and always lies in [0,1] (the bounds
hold for arbitrary, even extreme, component inputs). -/
theorem confidence_clamped (w : NWeights) (cap : ℚ) (s : ComponentScores)
    (_hsum : w.pattern + w.analytics + w.situational + w.market = 1)
    (hp : -cap ≤ s.pattern ∧ s.pattern ≤ cap)
    (ha : -cap ≤ s.analytics ∧ s.analytics ≤ cap)
    (hs : -cap ≤ s.situational ∧ s.situational ≤ cap)
    (hm : -cap ≤ s.market ∧ s.market ≤ cap) :
    confidenceScore w cap s =
      clamp (1/2 +
        (w.pattern * s.pattern + w.analytics * s.analytics +
          w.situational * s.situational + w.market * s.market)) 0 1 ∧
    0 ≤ confidenceScore w cap s ∧ confidenceScore w cap s ≤ 1 := by
  have hcl : ∀ x : ℚ, -cap ≤ x → x ≤ cap → clamp x (-cap) cap = x := by
    intro x h1 h2
    unfold clamp
    rw [min_eq_left h2, max_eq_right h1]
  have heq : confidenceScore w cap s =
      clamp (1/2 +
        (w.pattern * s.pattern + w.analytics * s.analytics +
          w.situational * s.situational + w.market * s.market)) 0 1 := by
    unfold confidenceScore
    rw [hcl _ hp.1 hp.2, hcl _ ha.1 ha.2, hcl _ hs.1 hs.2, hcl _ hm.1 hm.2]
  refine ⟨heq, ?_, ?_⟩
  · exact le_max_left 0 _
  · unfold confidenceScore clamp
    exact max_le (by norm_num) (min_le_right _ 1)

/-- Witness for C6 at the default weights 0.35/0.35/0.20/0.10, default
range 0.05, and component scores at the upper end of the range. -/
theorem confidence_clamped_witness :
    ((35:ℚ)/100 + 35/100 + 20/100 + 10/100 = 1) ∧
    0 ≤ confidenceScore ⟨35/100, 35/100, 20/100, 10/100⟩ (5/100)
        ⟨5/100, 5/100, 5/100, 5/100⟩ ∧
    confidenceScore ⟨35/100, 35/100, 20/100, 10/100⟩ (5/100)
        ⟨5/100, 5/100, 5/100, 5/100⟩ ≤ 1 := by
  refine ⟨by norm_num, ?_⟩
  exact (confidence_clamped ⟨35/100, 35/100, 20/100, 10/100⟩ (5/100)
    ⟨5/100, 5/100, 5/100, 5/100⟩ (by norm_num)
    (by constructor <;> norm_num) (by constructor <;> norm_num)
    (by constructor <;> norm_num) (by constructor <;> norm_num)).2

/-- Result state of a tracked bet (spec section 3). -/
inductive BetResult where
  | PENDING
  | WIN
  | LOSS
  | PUSH
deriving DecidableEq

/-- A final score, given as the points of the picked team and of the
opposing team. -/
structure FinalScore where
  picked_score : ℚ
  opposing_score : ℚ
deriving DecidableEq

/-- A tracked bet of the spec data model (section 3), restricted to the
fields the Grader touches. -/
structure TrackedBet where
  line_at_pick : ℚ
  confidence_at_pick : ℚ
  stake_fraction : ℚ
  result : BetResult
  actual_score : Option FinalScore
deriving DecidableEq

/-- Modelled from the spec: spread grading (section 4.6) is performed by
the backend, which is not part of the repository snapshot
(`BetTracker.tsx` only posts to the update-scores endpoint).  Per the
spec: WIN if the margin of the picked team beats the picked line, PUSH
if it exactly equals it, else LOSS, with the favorite line negative. -/
def gradeSpread (picked_score opposing_score line : ℚ) : BetResult :=
  if picked_score - opposing_score + line > 0 then .WIN
  else if picked_score - opposing_score + line = 0 then .PUSH
  else .LOSS

/-- Modelled from the spec: the Grader entry point
`grade(TrackedBet, final_score)` (section 4.6).  A bet whose result is
already terminal is returned unchanged; a PENDING bet is graded against
the final score and records it. -/
def grade (bet : TrackedBet) (score : FinalScore) : TrackedBet :=
  if bet.result = .PENDING then
    { bet with
      result := gradeSpread score.picked_score score.opposing_score
        bet.line_at_pick
      actual_score := some score }
  else bet

/-- C7: grading an already-terminal tracked bet with any final score
returns the bet unchanged; in particular result and actual score are
untouched and grading twice yields identical state both times. -/
theorem grade_idempotent_on_terminal (bet : TrackedBet)
    (s s' : FinalScore)
    (hterm : bet.result = .WIN ∨ bet.result = .LOSS ∨ bet.result = .PUSH) :
    grade bet s = bet ∧
    (grade bet s).result = bet.result ∧
    (grade bet s).actual_score = bet.actual_score ∧
    grade (grade bet s) s' = grade bet s := by
  have hne : ¬ bet.result = .PENDING := by
    rcases hterm with h | h | h <;> rw [h] <;> intro hc <;> cases hc
  have h1 : grade bet s = bet := by
    unfold grade
    rw [if_neg hne]
  refine ⟨h1, by rw [h1], by rw [h1], ?_⟩
  rw [h1]
  unfold grade
  rw [if_neg hne]

/-- Witness for C7 on a concrete bet already graded WIN. -/
theorem grade_idempotent_on_terminal_witness :
    ((⟨-(7/2), 3/5, 1/50, .WIN, some ⟨24, 20⟩⟩ : TrackedBet).result = .WIN ∨
      (⟨-(7/2), 3/5, 1/50, .WIN, some ⟨24, 20⟩⟩ : TrackedBet).result = .LOSS ∨
      (⟨-(7/2), 3/5, 1/50, .WIN, some ⟨24, 20⟩⟩ : TrackedBet).result = .PUSH) ∧
    grade ⟨-(7/2), 3/5, 1/50, .WIN, some ⟨24, 20⟩⟩ ⟨10, 30⟩ =
      ⟨-(7/2), 3/5, 1/50, .WIN, some ⟨24, 20⟩⟩ := by
  refine ⟨Or.inl rfl, ?_⟩
  exact (grade_idempotent_on_terminal ⟨-(7/2), 3/5, 1/50, .WIN, some ⟨24, 20⟩⟩
    ⟨10, 30⟩ ⟨0, 0⟩ (Or.inl rfl)).1

/-- C8: a spread bet grades WIN when the picked margin beats the picked
line, PUSH when it exactly offsets it, LOSS otherwise; in particular for
a pick of Home -3.5, a final margin of +4 grades WIN, a margin of
exactly +3.5 grades PUSH, and a margin of +2 grades LOSS. -/
theorem gradeSpread_spec (ps os line : ℚ) :
    (0 < ps - os + line → gradeSpread ps os line = .WIN) ∧
    (ps - os + line = 0 → gradeSpread ps os line = .PUSH) ∧
    (ps - os + line < 0 → gradeSpread ps os line = .LOSS) ∧
    gradeSpread 24 20 (-(7/2)) = .WIN ∧
    gradeSpread (7/2) 0 (-(7/2)) = .PUSH ∧
    gradeSpread 2 0 (-(7/2)) = .LOSS := by
  refine ⟨?_, ?_, ?_, ?_, ?_, ?_⟩
  · intro h
    unfold gradeSpread
    rw [if_pos h]
  · intro h
    unfold gradeSpread
    rw [if_neg (by rw [h]; exact lt_irrefl 0), if_pos h]
  · intro h
    unfold gradeSpread
    rw [if_neg (by exact not_lt_of_lt h), if_neg (by exact ne_of_lt h)]
  · unfold gradeSpread
    norm_num
  · unfold gradeSpread
    norm_num
  · unfold gradeSpread
    norm_num

/-- Witness for C8: the WIN scenario hypothesis discharged at
Home 24 - Away 20 with line -3.5. -/
theorem gradeSpread_spec_witness :
    (0:ℚ) < 24 - 20 + (-(7/2)) ∧ gradeSpread 24 20 (-(7/2)) = .WIN := by
  refine ⟨by norm_num, ?_⟩
  exact (gradeSpread_spec 24 20 (-(7/2))).1 (by norm_num)

/-- A game as returned by the games endpoint, restricted to the field
examined by `trackCurrentBets`. -/
structure GameRec where
  id : Nat
  confidence : ℚ
deriving DecidableEq

/-- Transcribed from `trackCurrentBets` in
`src/frontend/src/components/BetTracker.tsx` (lines 93-107):
the games are filtered by `g.confidence >= 0.55`; when the filtered list
is empty the function alerts and returns without issuing a tracking
request, otherwise it posts exactly the filtered list.  The optional
result is the list submitted for tracking, `none` when no request is
issued. -/
def trackCurrentBets (games : List GameRec) : Option (List GameRec) :=
  let bestBets := games.filter (fun g => decide ((11:ℚ)/20 ≤ g.confidence))
  if bestBets.length = 0 then none else some bestBets

/-- C9: the track-current-best-bets operation submits exactly the games
with confidence at least 0.55, and issues no tracking request when no
game reaches that threshold. -/
theorem trackCurrentBets_spec (games : List GameRec) :
    ((∀ g ∈ games, g.confidence < 11/20) → trackCurrentBets games = none) ∧
    ((∃ g ∈ games, (11:ℚ)/20 ≤ g.confidence) →
      trackCurrentBets games =
        some (games.filter (fun g => decide ((11:ℚ)/20 ≤ g.confidence)))) := by
  constructor
  · intro h
    have hfil : games.filter (fun g => decide ((11:ℚ)/20 ≤ g.confidence)) = [] := by
      rw [List.filter_eq_nil_iff]
      intro a ha
      simp only [decide_eq_true_eq, not_le]
      exact h a ha
    simp only [trackCurrentBets, hfil]
    rfl
  · rintro ⟨g, hg, hc⟩
    have hmem : g ∈ games.filter (fun g => decide ((11:ℚ)/20 ≤ g.confidence)) :=
      List.mem_filter.mpr ⟨hg, by simpa using hc⟩
    have hne : (games.filter
        (fun g => decide ((11:ℚ)/20 ≤ g.confidence))).length ≠ 0 := by
      intro h0
      exact List.ne_nil_of_mem hmem (List.eq_nil_of_length_eq_zero h0)
    simp only [trackCurrentBets]
    rw [if_neg hne]

/-- Witness for C9 on a concrete list with one game above and one below
the threshold. -/
theorem trackCurrentBets_spec_witness :
    (∃ g ∈ [(⟨1, 3/5⟩ : GameRec), ⟨2, 1/2⟩], (11:ℚ)/20 ≤ g.confidence) ∧
    trackCurrentBets [⟨1, 3/5⟩, ⟨2, 1/2⟩] = some [⟨1, 3/5⟩] := by
  have hex : ∃ g ∈ [(⟨1, 3/5⟩ : GameRec), ⟨2, 1/2⟩],
      (11:ℚ)/20 ≤ g.confidence :=
    ⟨⟨1, 3/5⟩, by simp, by norm_num⟩
  refine ⟨hex, ?_⟩
  rw [(trackCurrentBets_spec [⟨1, 3/5⟩, ⟨2, 1/2⟩]).2 hex]
  norm_num [List.filter_cons]

/-- The odds a book reports for a game, restricted to the spread field
read by `getBestLine`; `none` renders the JS `undefined`. -/
structure BookOdds where
  spread : Option ℚ
deriving DecidableEq

/-- A game as consumed by `getBestLine` in
`src/frontend/src/components/Dashboard.tsx`.  The two booleans render
the source tests `game.pick.includes(game.home_team)` and
`game.pick.includes(game.away_team)`. -/
structure LineGame where
  spread : ℚ
  pickingHome : Bool
  pickingAway : Bool
  book_odds : List (String × BookOdds)
deriving DecidableEq

/-- The value returned by `getBestLine`. -/
structure BestLine where
  book : String
  spread : ℚ
  displaySpread : ℚ
deriving DecidableEq

/-- The book-scanning loop of `getBestLine` (Dashboard.tsx lines
175-199): entries without a spread are skipped; the first book with a
spread is taken; thereafter a book replaces the current best when
picking the home team and its spread is larger, or when picking the away
team and its spread is smaller.  The optional string renders the JS
sentinel `bestBook = ''`. -/
def bestLineLoop (pickingHome pickingAway : Bool)
    (entries : List (String × BookOdds)) (best : Option String)
    (bestSpread : ℚ) : Option String × ℚ :=
  match entries with
  | [] => (best, bestSpread)
  | (book, odds) :: rest =>
    match odds.spread with
    | none => bestLineLoop pickingHome pickingAway rest best bestSpread
    | some s =>
      match best with
      | none => bestLineLoop pickingHome pickingAway rest (some book) s
      | some b =>
        if pickingHome then
          if bestSpread < s then
            bestLineLoop pickingHome pickingAway rest (some book) s
          else
            bestLineLoop pickingHome pickingAway rest (some b) bestSpread
        else if pickingAway then
          if s < bestSpread then
            bestLineLoop pickingHome pickingAway rest (some book) s
          else
            bestLineLoop pickingHome pickingAway rest (some b) bestSpread
        else
          bestLineLoop pickingHome pickingAway rest (some b) bestSpread

/-- Transcribed from `getBestLine` in Dashboard.tsx (lines 161-209):
empty book odds return null; otherwise the loop runs starting from no
best book and the game spread as initial value; a null best book at the
end returns null, and the display spread flips sign when picking the
away team. -/
def getBestLine (g : LineGame) : Option BestLine :=
  if g.book_odds.isEmpty then none
  else
    match bestLineLoop g.pickingHome g.pickingAway g.book_odds none g.spread with
    | (none, _) => none
    | (some book, bestSpread) =>
      some ⟨book, bestSpread,
        if g.pickingAway then -bestSpread else bestSpread⟩

/-- The spreads actually reported by the books of a game. -/
def reportedSpreads (g : LineGame) : List ℚ :=
  g.book_odds.filterMap (fun e => e.2.spread)

/-- A left fold of `max` is either its seed or an element of the list. -/
theorem foldl_max_mem (l : List ℚ) (a : ℚ) :
    l.foldl max a = a ∨ l.foldl max a ∈ l := by
  induction l generalizing a with
  | nil => exact Or.inl rfl
  | cons c t ih =>
    simp only [List.foldl_cons]
    rcases ih (max a c) with h | h
    · rcases max_choice a c with hm | hm
      · exact Or.inl (by rw [h, hm])
      · exact Or.inr (by rw [h, hm]; exact List.mem_cons_self c t)
    · exact Or.inr (List.mem_cons_of_mem c h)

/-- The seed is below a left fold of `max`. -/
theorem le_foldl_max (l : List ℚ) (a : ℚ) : a ≤ l.foldl max a := by
  induction l generalizing a with
  | nil => exact le_refl a
  | cons c t ih =>
    simp only [List.foldl_cons]
    exact le_trans (le_max_left a c) (ih (max a c))

/-- Every element of the list is below a left fold of `max`. -/
theorem le_foldl_max_of_mem (l : List ℚ) :
    ∀ (a x : ℚ), x ∈ l → x ≤ l.foldl max a := by
  induction l with
  | nil =>
    intro a x hx
    cases hx
  | cons c t ih =>
    intro a x hx
    simp only [List.foldl_cons]
    rcases List.mem_cons.mp hx with h | h
    · subst h
      exact le_trans (le_max_right a x) (le_foldl_max t (max a x))
    · exact ih (max a c) x h

/-- A left fold of `min` is either its seed or an element of the list. -/
theorem foldl_min_mem (l : List ℚ) (a : ℚ) :
    l.foldl min a = a ∨ l.foldl min a ∈ l := by
  induction l generalizing a with
  | nil => exact Or.inl rfl
  | cons c t ih =>
    simp only [List.foldl_cons]
    rcases ih (min a c) with h | h
    · rcases min_choice a c with hm | hm
      · exact Or.inl (by rw [h, hm])
      · exact Or.inr (by rw [h, hm]; exact List.mem_cons_self c t)
    · exact Or.inr (List.mem_cons_of_mem c h)

/-- A left fold of `min` is below its seed. -/
theorem foldl_min_le (l : List ℚ) (a : ℚ) : l.foldl min a ≤ a := by
  induction l generalizing a with
  | nil => exact le_refl a
  | cons c t ih =>
    simp only [List.foldl_cons]
    exact le_trans (ih (min a c)) (min_le_left a c)

/-- A left fold of `min` is below every element of the list. -/
theorem foldl_min_le_of_mem (l : List ℚ) :
    ∀ (a x : ℚ), x ∈ l → l.foldl min a ≤ x := by
  induction l with
  | nil =>
    intro a x hx
    cases hx
  | cons c t ih =>
    intro a x hx
    simp only [List.foldl_cons]
    rcases List.mem_cons.mp hx with h | h
    · subst h
      exact le_trans (foldl_min_le t (min a x)) (min_le_right a x)
    · exact ih (min a c) x h

/-- Once the loop holds a best book, it never loses it. -/
theorem bestLineLoop_isSome (ph pa : Bool)
    (entries : List (String × BookOdds)) :
    ∀ (best : Option String) (s0 : ℚ), best.isSome = true →
      ((bestLineLoop ph pa entries best s0).1).isSome = true := by
  induction entries with
  | nil =>
    intro best s0 h
    exact h
  | cons e rest ih =>
    intro best s0 h
    rcases e with ⟨book, odds⟩
    rcases hsp : odds.spread with _ | s
    · simp only [bestLineLoop, hsp]
      exact ih best s0 h
    · rcases best with _ | b
      · simp at h
      · simp only [bestLineLoop, hsp]

        repeat' split
        all_goals exact ih _ _ rfl

/-- Starting from no best book, the loop finds one exactly when some
entry reports a spread. -/
theorem bestLineLoop_fst_none_iff (ph pa : Bool)
    (entries : List (String × BookOdds)) (s0 : ℚ) :
    (bestLineLoop ph pa entries none s0).1 = none ↔
      entries.filterMap (fun e => e.2.spread) = [] := by
  induction entries generalizing s0 with
  | nil => simp [bestLineLoop]
  | cons e rest ih =>
    rcases e with ⟨book, odds⟩
    rcases hsp : odds.spread with _ | s
    · simp only [bestLineLoop, hsp, List.filterMap_cons]
      exact ih s0
    · simp only [bestLineLoop, hsp, List.filterMap_cons]
      constructor
      · intro h
        have hs := bestLineLoop_isSome ph pa rest (some book) s rfl
        rw [h] at hs
        simp at hs
      · intro h
        simp at h

/-- With the home team picked and a best book in hand, the loop returns
the running maximum of the remaining reported spreads. -/
theorem bestLineLoop_snd_home (pa : Bool)
    (entries : List (String × BookOdds)) :
    ∀ (b : String) (s0 : ℚ),
      (bestLineLoop true pa entries (some b) s0).2 =
        (entries.filterMap (fun e => e.2.spread)).foldl max s0 := by
  induction entries with
  | nil =>
    intro b s0
    rfl
  | cons e rest ih =>
    intro b s0
    rcases e with ⟨book, odds⟩
    rcases hsp : odds.spread with _ | s
    · simp only [bestLineLoop, hsp, List.filterMap_cons]
      exact ih b s0
    · simp only [bestLineLoop, hsp, List.filterMap_cons, List.foldl_cons]
      rw [if_pos trivial]
      by_cases hlt : s0 < s
      · rw [if_pos hlt, ih book s, max_eq_right hlt.le]
      · rw [if_neg hlt, ih b s0, max_eq_left (not_lt.mp hlt)]

/-- With only the away team picked and a best book in hand, the loop
returns the running minimum of the remaining reported spreads. -/
theorem bestLineLoop_snd_away (entries : List (String × BookOdds)) :
    ∀ (b : String) (s0 : ℚ),
      (bestLineLoop false true entries (some b) s0).2 =
        (entries.filterMap (fun e => e.2.spread)).foldl min s0 := by
  induction entries with
  | nil =>
    intro b s0
    rfl
  | cons e rest ih =>
    intro b s0
    rcases e with ⟨book, odds⟩
    rcases hsp : odds.spread with _ | s
    · simp only [bestLineLoop, hsp, List.filterMap_cons]
      exact ih b s0
    · simp only [bestLineLoop, hsp, List.filterMap_cons, List.foldl_cons]
      rw [if_neg Bool.false_ne_true, if_pos trivial]
      by_cases hlt : s < s0
      · rw [if_pos hlt, ih book s, min_eq_right hlt.le]
      · rw [if_neg hlt, ih b s0, min_eq_left (not_lt.mp hlt)]

/-- Starting from no best book with the home team picked, the final
spread is the maximum of the reported spreads. -/
theorem bestLineLoop_none_home (pa : Bool)
    (entries : List (String × BookOdds)) :
    ∀ (s0 s1 : ℚ) (r : List ℚ),
      entries.filterMap (fun e => e.2.spread) = s1 :: r →
      (bestLineLoop true pa entries none s0).2 = r.foldl max s1 := by
  induction entries with
  | nil =>
    intro s0 s1 r h
    cases h
  | cons e rest ih =>
    intro s0 s1 r h
    rcases e with ⟨book, odds⟩
    rcases hsp : odds.spread with _ | s
    · simp only [List.filterMap_cons, hsp] at h
      simp only [bestLineLoop, hsp]
      exact ih s0 s1 r h
    · simp only [List.filterMap_cons, hsp] at h
      injection h with h1 h2
      subst h1
      subst h2
      simp only [bestLineLoop, hsp]
      exact bestLineLoop_snd_home pa rest book _

/-- Starting from no best book with only the away team picked, the final
spread is the minimum of the reported spreads. -/
theorem bestLineLoop_none_away (entries : List (String × BookOdds)) :
    ∀ (s0 s1 : ℚ) (r : List ℚ),
      entries.filterMap (fun e => e.2.spread) = s1 :: r →
      (bestLineLoop false true entries none s0).2 = r.foldl min s1 := by
  induction entries with
  | nil =>
    intro s0 s1 r h
    cases h
  | cons e rest ih =>
    intro s0 s1 r h
    rcases e with ⟨book, odds⟩
    rcases hsp : odds.spread with _ | s
    · simp only [List.filterMap_cons, hsp] at h
      simp only [bestLineLoop, hsp]
      exact ih s0 s1 r h
    · simp only [List.filterMap_cons, hsp] at h
      injection h with h1 h2
      subst h1
      subst h2
      simp only [bestLineLoop, hsp]
      exact bestLineLoop_snd_away rest book _

/-- Unfolding of `getBestLine` on non-empty book odds, by the value of
the scanning loop. -/
theorem getBestLine_cases (g : LineGame) (hne : ¬ g.book_odds = []) :
    ∀ (fst : Option String) (snd : ℚ),
      bestLineLoop g.pickingHome g.pickingAway g.book_odds none g.spread =
        (fst, snd) →
      (fst = none → getBestLine g = none) ∧
      (∀ book, fst = some book →
        getBestLine g =
          some ⟨book, snd, if g.pickingAway then -snd else snd⟩) := by
  intro fst snd hL
  have hemp : g.book_odds.isEmpty = false := by
    rcases hodds : g.book_odds with _ | ⟨a, l⟩
    · exact absurd hodds hne
    · rfl
  constructor
  · intro hf
    subst hf
    unfold getBestLine
    rw [hemp, if_neg Bool.false_ne_true, hL]
  · intro book hf
    subst hf
    unfold getBestLine
    rw [hemp, if_neg Bool.false_ne_true, hL]

/-- C10 counterexample: the claim states that `getBestLine` returns null
exactly when the game has no book odds entries; but for a game with one
book entry carrying no spread field the entry list is non-empty and the
function still returns null. -/
theorem getBestLine_none_nonempty_counterexample :
    getBestLine ⟨-3, true, false, [("draftkings", ⟨none⟩)]⟩ = none ∧
    (⟨-3, true, false, [("draftkings", ⟨none⟩)]⟩ :
      LineGame).book_odds ≠ [] := by
  refine ⟨rfl, ?_⟩
  exact List.cons_ne_nil _ _

/-- C10 (amended): `getBestLine` returns null exactly when no book
reports a spread (so also for games whose book entries all lack a
spread); when it returns a line and the pick names the home team only,
the displayed spread is the greatest home spread reported by any book;
when the pick names the away team only, it is the negation of the least
reported home spread. -/
theorem getBestLine_spec (g : LineGame) :
    (getBestLine g = none ↔ reportedSpreads g = []) ∧
    (∀ bl : BestLine, getBestLine g = some bl →
      (g.pickingHome = true → g.pickingAway = false →
        bl.displaySpread ∈ reportedSpreads g ∧
        ∀ s ∈ reportedSpreads g, s ≤ bl.displaySpread) ∧
      (g.pickingHome = false → g.pickingAway = true →
        -bl.displaySpread ∈ reportedSpreads g ∧
        ∀ s ∈ reportedSpreads g, -bl.displaySpread ≤ s)) := by
  by_cases hnil : g.book_odds = []
  · have hn : getBestLine g = none := by
      unfold getBestLine
      rw [hnil]
      rfl
    constructor
    · constructor
      · intro _
        simp [reportedSpreads, hnil]
      · intro _
        exact hn
    · intro bl hbl
      rw [hn] at hbl
      exact Option.noConfusion hbl
  · rcases hL : bestLineLoop g.pickingHome g.pickingAway g.book_odds none
        g.spread with ⟨fst, snd⟩
    have hcases := getBestLine_cases g hnil fst snd hL
    have hiff : fst = none ↔ reportedSpreads g = [] := by
      rw [reportedSpreads,
        ← bestLineLoop_fst_none_iff g.pickingHome g.pickingAway g.book_odds
          g.spread, hL]
    rcases fst with _ | book
    · have hnone := hcases.1 rfl
      have hrep : reportedSpreads g = [] := hiff.mp rfl
      constructor
      · exact ⟨fun _ => hrep, fun _ => hnone⟩
      · intro bl hbl
        rw [hnone] at hbl
        exact Option.noConfusion hbl
    · have hsome := hcases.2 book rfl
      have hrep_ne : ¬ reportedSpreads g = [] := fun h =>
        Option.noConfusion (hiff.mpr h)
      rcases hrepeq : reportedSpreads g with _ | ⟨s1, r⟩
      · exact absurd hrepeq hrep_ne
      constructor
      · constructor
        · intro h
          rw [hsome] at h
          exact Option.noConfusion h
        · intro h
          exact absurd h (List.cons_ne_nil s1 r)
      · intro bl hbl
        have hblv : bl = ⟨book, snd, if g.pickingAway then -snd else snd⟩ := by
          have h := hsome.symm.trans hbl
          injection h with h
          exact h.symm
        constructor
        · intro hph hpa
          have hL' := hL
          rw [hph] at hL'
          have hsnd : snd = r.foldl max s1 := by
            have h2 := bestLineLoop_none_home g.pickingAway g.book_odds
              g.spread s1 r hrepeq
            rw [hL'] at h2
            exact h2
          have hd : bl.displaySpread = snd := by
            rw [hblv]
            simp [hpa]
          rw [hd, hsnd]
          constructor
          · rcases foldl_max_mem r s1 with hc | hc
            · rw [hc]
              exact List.mem_cons_self s1 r
            · exact List.mem_cons_of_mem s1 hc
          · intro s hs
            rcases List.mem_cons.mp hs with h | h
            · subst h
              exact le_foldl_max r s
            · exact le_foldl_max_of_mem r s1 s h
        · intro hph hpa
          have hL' := hL
          rw [hph, hpa] at hL'
          have hsnd : snd = r.foldl min s1 := by
            have h2 := bestLineLoop_none_away g.book_odds g.spread s1 r hrepeq
            rw [hL'] at h2
            exact h2
          have hd : -bl.displaySpread = snd := by
            rw [hblv]
            simp [hpa]
          rw [hd, hsnd]
          constructor
          · rcases foldl_min_mem r s1 with hc | hc
            · rw [hc]
              exact List.mem_cons_self s1 r
            · exact List.mem_cons_of_mem s1 hc
          · intro s hs
            rcases List.mem_cons.mp hs with h | h
            · subst h
              exact foldl_min_le r s
            · exact foldl_min_le_of_mem r s1 s h

/-- Witness for C10 on a game picking the home team with two books
reporting spreads 3 and -2: the best line is book a at +3, the maximum
reported spread. -/
theorem getBestLine_spec_witness :
    getBestLine ⟨-3, true, false, [("a", ⟨some 3⟩), ("b", ⟨some (-2)⟩)]⟩ =
      some ⟨"a", 3, 3⟩ ∧
    (BestLine.mk "a" 3 3).displaySpread ∈
      reportedSpreads ⟨-3, true, false, [("a", ⟨some 3⟩), ("b", ⟨some (-2)⟩)]⟩ ∧
    ∀ s ∈ reportedSpreads ⟨-3, true, false,
        [("a", ⟨some 3⟩), ("b", ⟨some (-2)⟩)]⟩,
      s ≤ (BestLine.mk "a" 3 3).displaySpread := by
  have hsome : getBestLine
      ⟨-3, true, false, [("a", ⟨some 3⟩), ("b", ⟨some (-2)⟩)]⟩ =
        some ⟨"a", 3, 3⟩ := by
    norm_num [getBestLine, bestLineLoop]
  have h := ((getBestLine_spec
    ⟨-3, true, false, [("a", ⟨some 3⟩), ("b", ⟨some (-2)⟩)]⟩).2
    ⟨"a", 3, 3⟩ hsome).1 rfl rfl
  exact ⟨hsome, h.1, h.2⟩

end SeanPicks
